import Mathlib

/- Verification of `ssl_sandbox/pretrain/sensemble.py`.

   Embedding conventions.  A tensor of shape `(rows, cols)` is embedded as a
   function `Fin R → Fin P → ℚ` (or `→ ℝ` where logarithms are needed); exact
   arithmetic stands in for floating point, so statements that the source
   makes "within numeric tolerance" become exact equalities here.  The
   distributed collective `all_gather` is modelled by working directly on the
   pooled matrix of all workers' rows (`R = world_size * local_rows`): every
   worker applies identical operations to its row-slice, so the pooled matrix
   evolves exactly as written below. -/

/-! ### Sinkhorn balancer (`Sensemble.sinkhorn`, sensemble.py lines 178-192) -/

/-- Column sums of the pooled matrix: `self.all_gather(targets).sum(dim=(0, 1))`. -/
def colSum {R P : ℕ} (M : Fin R → Fin P → ℚ) (j : Fin P) : ℚ := ∑ i, M i j

/-- Row sums: `targets.sum(dim=-1)`. -/
def rowSum {R P : ℕ} (M : Fin R → Fin P → ℚ) (i : Fin R) : ℚ := ∑ j, M i j

/-- Total sum of the gathered tensor: `gathered_targets.sum()`. -/
def totalSum {R P : ℕ} (M : Fin R → Fin P → ℚ) : ℚ := ∑ i, rowSum M i

/-- First half of the loop body of `sinkhorn`:
`targets /= self.all_gather(targets).sum(dim=(0, 1)); targets /= num_prototypes`. -/
def colStep {R P : ℕ} (M : Fin R → Fin P → ℚ) : Fin R → Fin P → ℚ :=
  fun i j => M i j / colSum M j / (P : ℚ)

/-- One full iteration of the loop in `sinkhorn`: the column step followed by
`targets /= targets.sum(dim=-1, keepdim=True); targets /= world_size * batch_size`,
where `world_size * batch_size = R` is the number of pooled rows. -/
def sinkhornStep {R P : ℕ} (M : Fin R → Fin P → ℚ) : Fin R → Fin P → ℚ :=
  fun i j => colStep M i j / rowSum (colStep M) i / (R : ℚ)

/-- `Sensemble.sinkhorn` on the pooled matrix: the initial global normalisation
`targets = targets / gathered_targets.sum()`, then `num_sinkhorn_iters`
iterations of the loop, then the final rescale `targets *= world_size * batch_size`. -/
def sinkhorn {R P : ℕ} (iters : ℕ) (M : Fin R → Fin P → ℚ) : Fin R → Fin P → ℚ :=
  fun i j => (sinkhornStep^[iters] fun a b => M a b / totalSum M) i j * (R : ℚ)

/-- Invariant carried through the Sinkhorn iterations: all entries are
non-negative and every row sum is positive. -/
def PosRows {R P : ℕ} (M : Fin R → Fin P → ℚ) : Prop :=
  (∀ i j, 0 ≤ M i j) ∧ (∀ i, 0 < rowSum M i)

lemma colSum_nonneg {R P : ℕ} {M : Fin R → Fin P → ℚ} (h0 : ∀ i j, 0 ≤ M i j)
    (j : Fin P) : 0 ≤ colSum M j :=
  Finset.sum_nonneg fun i _ => h0 i j

lemma exists_pos_of_rowSum_pos {R P : ℕ} {M : Fin R → Fin P → ℚ}
    (h0 : ∀ i j, 0 ≤ M i j) {i : Fin R} (hi : 0 < rowSum M i) : ∃ j, 0 < M i j := by
  by_contra hc
  push_neg at hc
  have hz : rowSum M i = 0 :=
    Finset.sum_eq_zero fun j _ => le_antisymm (hc j) (h0 i j)
  rw [hz] at hi
  exact lt_irrefl 0 hi

lemma colStep_posRows {R P : ℕ} {M : Fin R → Fin P → ℚ} (h : PosRows M) :
    PosRows (colStep M) := by
  obtain ⟨h0, h1⟩ := h
  have hnn : ∀ i j, 0 ≤ colStep M i j := fun i j =>
    div_nonneg (div_nonneg (h0 i j) (colSum_nonneg h0 j)) (Nat.cast_nonneg P)
  refine ⟨hnn, fun i => ?_⟩
  obtain ⟨j0, hj0⟩ := exists_pos_of_rowSum_pos h0 (h1 i)
  have hcol : 0 < colSum M j0 :=
    lt_of_lt_of_le hj0 (Finset.single_le_sum (fun a _ => h0 a j0) (Finset.mem_univ i))
  have hP : (0 : ℚ) < (P : ℚ) := by exact_mod_cast j0.pos
  have hpos : 0 < colStep M i j0 := div_pos (div_pos hj0 hcol) hP
  exact Finset.sum_pos' (fun j _ => hnn i j) ⟨j0, Finset.mem_univ j0, hpos⟩

lemma sinkhornStep_posRows {R P : ℕ} {M : Fin R → Fin P → ℚ} (h : PosRows M) :
    PosRows (sinkhornStep M) := by
  obtain ⟨hnn, hpos⟩ := colStep_posRows h
  constructor
  · intro i j
    exact div_nonneg (div_nonneg (hnn i j) (hpos i).le) (Nat.cast_nonneg R)
  · intro i
    have hR : (0 : ℚ) < (R : ℚ) := by exact_mod_cast i.pos
    have hsum : rowSum (sinkhornStep M) i = 1 / (R : ℚ) := by
      unfold rowSum sinkhornStep
      rw [← Finset.sum_div, ← Finset.sum_div]
      have hs : (∑ j, colStep M i j) = rowSum (colStep M) i := rfl
      rw [hs, div_self (ne_of_gt (hpos i))]
    rw [hsum]
    positivity

lemma sinkhornStep_rowSum {R P : ℕ} {M : Fin R → Fin P → ℚ} (h : PosRows M)
    (i : Fin R) : rowSum (sinkhornStep M) i = 1 / (R : ℚ) := by
  obtain ⟨hnn, hpos⟩ := colStep_posRows h
  unfold rowSum sinkhornStep
  rw [← Finset.sum_div, ← Finset.sum_div]
  have hs : (∑ j, colStep M i j) = rowSum (colStep M) i := rfl
  rw [hs, div_self (ne_of_gt (hpos i))]

lemma sinkhorn_iterate_posRows {R P : ℕ} {M : Fin R → Fin P → ℚ}
    (h0 : ∀ i j, 0 ≤ M i j) (h1 : ∀ i, 0 < rowSum M i) (hR : 0 < R) (n : ℕ) :
    PosRows (sinkhornStep^[n] fun a b => M a b / totalSum M) := by
  have hT : 0 < totalSum M :=
    Finset.sum_pos (fun a _ => h1 a) (Finset.univ_nonempty_iff.mpr ⟨⟨0, hR⟩⟩)
  have hM0 : PosRows (fun a b => M a b / totalSum M) := by
    constructor
    · intro a b; exact div_nonneg (h0 a b) hT.le
    · intro a
      have : rowSum (fun a b => M a b / totalSum M) a = rowSum M a / totalSum M := by
        unfold rowSum
        rw [← Finset.sum_div]
      rw [this]
      exact div_pos (h1 a) hT
  induction n with
  | zero => simpa using hM0
  | succ k ih => rw [Function.iterate_succ_apply']; exact sinkhornStep_posRows ih

/-- Claim C1: for every input matrix of non-negative target rows in which each
row sums to a positive value, the Sinkhorn balancer — run for the fixed number
of iterations (at least one, as in the code path where `num_sinkhorn_iters > 0`)
with the final rescale by `world_size * batch_size` — returns a same-shape
matrix (shape is preserved by the embedding's type) that is row-stochastic:
all entries are non-negative and every output row sums exactly to 1. -/
theorem sinkhorn_row_stochastic {R P : ℕ} (M : Fin R → Fin P → ℚ) (iters : ℕ)
    (hit : 1 ≤ iters) (h0 : ∀ i j, 0 ≤ M i j) (h1 : ∀ i, 0 < rowSum M i) :
    (∀ i j, 0 ≤ sinkhorn iters M i j) ∧ (∀ i, rowSum (sinkhorn iters M) i = 1) := by
  constructor
  · intro i j
    have hR : 0 < R := i.pos
    have hinv := sinkhorn_iterate_posRows h0 h1 hR iters
    exact mul_nonneg (hinv.1 i j) (Nat.cast_nonneg R)
  · intro i
    have hR : 0 < R := i.pos
    have hRq : (0 : ℚ) < (R : ℚ) := by exact_mod_cast hR
    obtain ⟨k, rfl⟩ : ∃ k, iters = k + 1 := ⟨iters - 1, by omega⟩
    have hinv := sinkhorn_iterate_posRows h0 h1 hR k
    have hlast : rowSum (sinkhornStep^[k + 1] fun a b => M a b / totalSum M) i
        = 1 / (R : ℚ) := by
      rw [Function.iterate_succ_apply']
      exact sinkhornStep_rowSum hinv i
    have hmul : rowSum (sinkhorn (k + 1) M) i
        = rowSum (sinkhornStep^[k + 1] fun a b => M a b / totalSum M) i * (R : ℚ) := by
      unfold rowSum sinkhorn
      rw [← Finset.sum_mul]
    rw [hmul, hlast]
    field_simp

/-- Concrete 2-by-2 matrix of targets used to exercise `sinkhorn`. -/
def sinkhornDemo : Fin 2 → Fin 2 → ℚ := fun _ _ => 1

/-- Witness for C1: the hypotheses of `sinkhorn_row_stochastic` hold at
`sinkhornDemo` with the default 3 iterations, and its conclusion follows. -/
theorem sinkhorn_row_stochastic_witness :
    (1 ≤ 3 ∧ (∀ i j, 0 ≤ sinkhornDemo i j) ∧ (∀ i, 0 < rowSum sinkhornDemo i)) ∧
    ((∀ i j, 0 ≤ sinkhorn 3 sinkhornDemo i j) ∧
      (∀ i, rowSum (sinkhorn 3 sinkhornDemo) i = 1)) :=
  ⟨⟨by decide, by simp [sinkhornDemo], by simp [rowSum, Fin.sum_univ_two, sinkhornDemo]⟩,
    sinkhorn_row_stochastic sinkhornDemo 3 (by decide) (by simp [sinkhornDemo])
      (by simp [rowSum, Fin.sum_univ_two, sinkhornDemo])⟩

/-! ### Target queue push (`Sensemble.training_step`, lines 106-109) -/

/-- The queue update in `training_step`:
`if queue_size > batch_size: self.sinkhorn_queue[batch_size:] = self.sinkhorn_queue[:-batch_size].clone()`
followed by `self.sinkhorn_queue[:batch_size] = targets`.  The `.clone()` makes
the shifted rows the pre-update rows; position `i ≥ B` therefore receives old
row `i - B`, and positions `i < B` receive the new targets (when
`queue_size == batch_size` the conditional shift is skipped and the whole
buffer is overwritten, which is the same pointwise result). -/
def pushBatch {C B P : ℕ} (q : Fin C → Fin P → ℚ) (t : Fin B → Fin P → ℚ) :
    Fin C → Fin P → ℚ :=
  fun i j =>
    if hi : (i : ℕ) < B then t ⟨i, hi⟩ j
    else q ⟨(i : ℕ) - B, lt_of_le_of_lt (Nat.sub_le _ _) i.isLt⟩ j

/-- Claim C4: pushing a batch of `B` new target rows into a queue of capacity
`C ≥ B` (the in-code assertion `queue_size >= batch_size`) puts the new targets
in the first `B` rows; when `C > B` every surviving old row is shifted down by
`B` positions preserving relative order (row `i ≥ B` holds old row `i - B`, so
the oldest `B` rows are discarded); when `C = B` the entire buffer is replaced
by the new batch.  The buffer size is unchanged (the result has the same index
type `Fin C`). -/
theorem pushBatch_spec {C B P : ℕ} (hBC : B ≤ C) (q : Fin C → Fin P → ℚ)
    (t : Fin B → Fin P → ℚ) :
    (∀ (i : Fin C) (hi : (i : ℕ) < B) (j : Fin P), pushBatch q t i j = t ⟨i, hi⟩ j) ∧
    (∀ (i : Fin C) (hB : B ≤ (i : ℕ)) (j : Fin P),
      pushBatch q t i j = q ⟨(i : ℕ) - B, lt_of_le_of_lt (Nat.sub_le _ _) i.isLt⟩ j) ∧
    (∀ (hEq : B = C) (i : Fin C) (j : Fin P),
      pushBatch q t i j = t ⟨(i : ℕ), lt_of_lt_of_le i.isLt hEq.symm.le⟩ j) := by
  refine ⟨fun i hi j => ?_, fun i hB j => ?_, fun hEq i j => ?_⟩
  · unfold pushBatch
    rw [dif_pos hi]
  · unfold pushBatch
    rw [dif_neg (by omega)]
  · unfold pushBatch
    rw [dif_pos (lt_of_lt_of_le i.isLt hEq.symm.le)]

/-- Concrete queue contents used to exercise `pushBatch`: capacity 3, one column. -/
def queueDemo : Fin 3 → Fin 1 → ℚ := fun i _ => (i : ℚ)

/-- Concrete pushed batch used to exercise `pushBatch`: 2 rows, one column. -/
def batchDemo : Fin 2 → Fin 1 → ℚ := fun i _ => 10 + (i : ℚ)

/-- Witness for C4: at capacity 3 and batch 2, slot 0 receives new row 0 and
slot 2 receives old row 0. -/
theorem pushBatch_spec_witness :
    pushBatch queueDemo batchDemo 0 0 = batchDemo 0 0 ∧
    pushBatch queueDemo batchDemo 2 0 = queueDemo 0 0 :=
  ⟨(pushBatch_spec (by decide) queueDemo batchDemo).1 0 (by decide) 0,
    (pushBatch_spec (by decide) queueDemo batchDemo).2.1 2 (by decide) 0⟩

/-! ### Warm-up predicate (`Sensemble.training_step`, line 111) -/

/-- The warm-up check `batch_size * (self.global_step + 1) >= queue_size`
deciding whether the queue is "full and ready for usage". -/
def isWarm (step batchSize capacity : ℕ) : Bool :=
  capacity ≤ batchSize * (step + 1)

/-- Claim C5: for fixed `batchSize > 0` and `capacity > 0`, `isWarm` is true
exactly when `batchSize * (step + 1) ≥ capacity`, and it is monotone in the
step index: once true it never flips back to false. -/
theorem isWarm_spec (batchSize capacity : ℕ) (hb : 0 < batchSize)
    (hc : 0 < capacity) :
    (∀ step, isWarm step batchSize capacity = true ↔
      capacity ≤ batchSize * (step + 1)) ∧
    (∀ s t, s ≤ t → isWarm s batchSize capacity = true →
      isWarm t batchSize capacity = true) := by
  constructor
  · intro step
    simp [isWarm]
  · intro s t hst hs
    simp only [isWarm, decide_eq_true_eq] at hs ⊢
    exact le_trans hs (Nat.mul_le_mul_left _ (by omega))

/-- Witness for C5 (the spec's end-to-end example): with batch 4 and per-worker
capacity 4, the queue is warm already at step 0. -/
theorem isWarm_spec_witness :
    isWarm 0 4 4 = true ↔ 4 ≤ 4 * (0 + 1) :=
  (isWarm_spec 4 4 (by decide) (by decide)).1 0

/-! ### Warm-path training step keeps the queue unbalanced (lines 106-115) -/

/-- The queue-related part of the warm path of `training_step` (single-worker
instantiation, `world_size = 1`, so the pooled Sinkhorn matrix is the local
queue itself): the queue is updated by `pushBatch`, and the training targets
are `self.sinkhorn(self.sinkhorn_queue.clone())[:batch_size]` — the balancer
(which mutates its argument in place) is applied to a `.clone()` of the queue,
so the stored queue is the pushed, pre-balancing contents.  Returns the pair
(queue after the step, targets used for the loss). -/
def trainingStepWarmQueue {C B P : ℕ} (iters : ℕ) (q : Fin C → Fin P → ℚ)
    (t : Fin B → Fin P → ℚ) (hBC : B ≤ C) :
    (Fin C → Fin P → ℚ) × (Fin B → Fin P → ℚ) :=
  let q1 := pushBatch q t
  (q1, fun b j => sinkhorn iters q1 ⟨(b : ℕ), lt_of_lt_of_le b.isLt hBC⟩ j)

/-- Concrete one-row queue whose Sinkhorn balance differs from its raw
contents, showing the frame property below is not vacuous. -/
def balanceDemo : Fin 1 → Fin 2 → ℚ := fun _ j => if j = 0 then 1 else 3

/-- Claim C10: in every warm-path training step the queue after the step holds
exactly the pushed, pre-balancing teacher targets — `pushBatch q t`, never the
balanced matrix — while the loss targets are the first `B` rows of the
balancer applied to a copy of that queue.  The balanced matrix genuinely
differs from the stored queue in general: at `balanceDemo` the balancer
changes the first entry, yet the stored queue would keep it. -/
theorem trainingStep_queue_frame {C B P : ℕ} (iters : ℕ) (q : Fin C → Fin P → ℚ)
    (t : Fin B → Fin P → ℚ) (hBC : B ≤ C) :
    (∀ i j, (trainingStepWarmQueue iters q t hBC).1 i j = pushBatch q t i j) ∧
    (∀ b j, (trainingStepWarmQueue iters q t hBC).2 b j
      = sinkhorn iters (pushBatch q t) ⟨(b : ℕ), lt_of_lt_of_le b.isLt hBC⟩ j) ∧
    sinkhorn 3 balanceDemo 0 0 ≠ balanceDemo 0 0 := by
  refine ⟨fun i j => rfl, fun b j => rfl, ?_⟩
  have hdemo : sinkhorn 3 balanceDemo 0 0 = 1 / 2 := by
    simp only [sinkhorn, Function.iterate_succ, Function.iterate_zero,
      Function.comp_apply, id_eq, sinkhornStep, colStep, rowSum, colSum, totalSum,
      balanceDemo, Fin.sum_univ_two, Fin.sum_univ_one]
    norm_num
  rw [hdemo]
  simp [balanceDemo]

/-- Witness for C10: at the concrete queue/batch of C4's demo, the stored
queue after the warm step equals the pushed contents at every slot. -/
theorem trainingStep_queue_frame_witness :
    (trainingStepWarmQueue 3 queueDemo batchDemo (by decide)).1 0 0
      = pushBatch queueDemo batchDemo 0 0 ∧
    sinkhorn 3 balanceDemo 0 0 ≠ balanceDemo 0 0 :=
  ⟨(trainingStep_queue_frame 3 queueDemo batchDemo (by decide)).1 0 0,
    (trainingStep_queue_frame 3 queueDemo batchDemo (by decide)).2.2⟩

/-! ### Numeric primitives over the reals -/

/-- Modelled from the spec: Shannon entropy from the module
`ssl_sandbox/nn/functional.py`, which is not part of the sources
(`entropy(p, dim=-1)` is only imported and called here).  Spec sections 7/8:
entropy sums `-p * log p` over the last axis with the convention
`0 * log 0 = 0`, which is exactly `Real.negMulLog` (whose value at `0` is `0`). -/
noncomputable def entropyF {P : ℕ} (p : Fin P → ℝ) : ℝ :=
  ∑ j, Real.negMulLog (p j)

/-- `torch.softmax(l, dim=-1)`. -/
noncomputable def softmaxF {P : ℕ} (l : Fin P → ℝ) : Fin P → ℝ :=
  fun j => Real.exp (l j) / ∑ k, Real.exp (l k)

/-- `torch.logsumexp(l, dim=-1)`. -/
noncomputable def logsumexpF {P : ℕ} (l : Fin P → ℝ) : ℝ :=
  Real.log (∑ k, Real.exp (l k))

/-- `F.cross_entropy` with probability-vector (soft) targets and the default
mean reduction: the batch mean of `-(targets * log_softmax(logits)).sum(-1)`,
where `log_softmax(l) j = l j - logsumexp l`. -/
noncomputable def crossEntropySoft {B P : ℕ} (logits targets : Fin B → Fin P → ℝ) : ℝ :=
  (∑ b, ∑ j, -(targets b j * (logits b j - logsumexpF (logits b)))) / B

/-! ### Training-step loss assembly (`Sensemble.training_step`, lines 117-123) -/

/-- The loss computation of `training_step` in the single-worker instantiation
(`world_size = 1`: `all_gather` stacks only the local batch, so the pooled mean
over `dim=(0, 1)` is the mean over the batch axis):
`bootstrap_loss = F.cross_entropy(logits, targets)`,
`probas = softmax(logits, dim=-1)`,
`memax = math.log(num_prototypes) - entropy(probas.mean(dim=(0, 1)), dim=-1)`,
and the returned value `loss = bootstrap_loss + memax_weight * memax`. -/
noncomputable def trainingStepLoss {B P : ℕ} (logits targets : Fin B → Fin P → ℝ)
    (memaxWeight : ℝ) : ℝ :=
  let bootstrapLoss := crossEntropySoft logits targets
  let probas := fun b => softmaxF (logits b)
  let memax := Real.log (P : ℝ) - entropyF (fun j => (∑ b, probas b j) / (B : ℝ))
  bootstrapLoss + memaxWeight * memax

/-- Claim C6: in every training step the max-entropy regularizer equals
`log(num_prototypes)` minus the entropy of the mean (over the pooled
worker-and-batch axis) of the student softmax probabilities, and the returned
total loss is `bootstrap_loss + memax_weight * memax` where `bootstrap_loss`
is the soft-target cross-entropy of the student logits. -/
theorem trainingStepLoss_eq {B P : ℕ} (logits targets : Fin B → Fin P → ℝ)
    (memaxWeight : ℝ) :
    trainingStepLoss logits targets memaxWeight
      = crossEntropySoft logits targets
        + memaxWeight
          * (Real.log (P : ℝ)
            - entropyF (fun j => (∑ b, softmaxF (logits b) j) / (B : ℝ))) := rfl

/-! ### Ensemble OOD scores (`Sensemble.compute_ood_scores`, lines 194-202) -/

/-- `ensemble_probas.mean(dim=0)` for an ensemble tensor of shape `(K, B, P)`. -/
noncomputable def meanProbas {K B P : ℕ} (E : Fin K → Fin B → Fin P → ℝ) :
    Fin B → Fin P → ℝ :=
  fun b j => (∑ k, E k b j) / (K : ℝ)

/-- `mean_entropies = entropy(mean_probas, dim=-1)`. -/
noncomputable def meanEntropies {K B P : ℕ} (E : Fin K → Fin B → Fin P → ℝ) :
    Fin B → ℝ :=
  fun b => entropyF (meanProbas E b)

/-- `expected_entropies = entropy(ensemble_probas, dim=-1).mean(dim=0)`. -/
noncomputable def expectedEntropies {K B P : ℕ} (E : Fin K → Fin B → Fin P → ℝ) :
    Fin B → ℝ :=
  fun b => (∑ k, entropyF (E k b)) / (K : ℝ)

/-- `bald_scores = mean_entropies - expected_entropies`. -/
noncomputable def baldScores {K B P : ℕ} (E : Fin K → Fin B → Fin P → ℝ) :
    Fin B → ℝ :=
  fun b => meanEntropies E b - expectedEntropies E b

/-- Claim C7: `compute_ood_scores` returns
`bald_score = mean_entropy - expected_entropy`, and for every ensemble of
`K ≥ 1` probability vectors with non-negative entries this value is
non-negative (hence `≥ -ε` for every tolerance `ε ≥ 0`), by Jensen's
inequality for the concave function `x ↦ -x log x`. -/
theorem baldScores_nonneg {K B P : ℕ} (E : Fin K → Fin B → Fin P → ℝ)
    (hK : 0 < K) (hnn : ∀ k b j, 0 ≤ E k b j) (b : Fin B) :
    baldScores E b = meanEntropies E b - expectedEntropies E b ∧
    0 ≤ baldScores E b := by
  refine ⟨rfl, ?_⟩
  have hKr : (0 : ℝ) < (K : ℝ) := by exact_mod_cast hK
  have hKne : (K : ℝ) ≠ 0 := ne_of_gt hKr
  have hw : ∑ _k : Fin K, (K : ℝ)⁻¹ = 1 := by
    rw [Finset.sum_const, Finset.card_univ, Fintype.card_fin, nsmul_eq_mul]
    exact mul_inv_cancel₀ hKne
  have hj : ∀ j, ∑ k, (K : ℝ)⁻¹ * Real.negMulLog (E k b j)
      ≤ Real.negMulLog ((∑ k, E k b j) / (K : ℝ)) := by
    intro j
    have hjen := Real.concaveOn_negMulLog.le_map_sum
      (t := Finset.univ) (w := fun _ : Fin K => (K : ℝ)⁻¹) (p := fun k => E k b j)
      (fun k _ => by positivity) hw (fun k _ => hnn k b j)
    have hsum : (∑ k, E k b j) / (K : ℝ) = ∑ k, (K : ℝ)⁻¹ * E k b j := by
      rw [div_eq_inv_mul, Finset.mul_sum]
    rw [hsum]
    simpa [smul_eq_mul] using hjen
  unfold baldScores
  rw [sub_nonneg]
  unfold meanEntropies expectedEntropies meanProbas entropyF
  calc (∑ k, ∑ j, Real.negMulLog (E k b j)) / (K : ℝ)
      = ∑ j, ∑ k, (K : ℝ)⁻¹ * Real.negMulLog (E k b j) := by
        rw [div_eq_inv_mul, Finset.mul_sum, Finset.sum_comm]
        congr 1
        funext j
        rw [Finset.mul_sum]
    _ ≤ ∑ j, Real.negMulLog ((∑ k, E k b j) / (K : ℝ)) :=
        Finset.sum_le_sum fun j _ => hj j

/-- Concrete one-pass, one-sample, one-class ensemble used to exercise
`baldScores`. -/
noncomputable def ensembleDemo : Fin 1 → Fin 1 → Fin 1 → ℝ := fun _ _ _ => 1

/-- Witness for C7: at `ensembleDemo` the hypotheses hold and the BALD score
is non-negative. -/
theorem baldScores_nonneg_witness :
    baldScores ensembleDemo 0 = meanEntropies ensembleDemo 0 - expectedEntropies ensembleDemo 0 ∧
    0 ≤ baldScores ensembleDemo 0 :=
  baldScores_nonneg ensembleDemo (by decide) (fun _ _ _ => zero_le_one) 0

/-! ### Single-pass scores in `validation_step` (lines 138-145) -/

/-- A Python value reaching the unary minus in `validation_step`: either a
plain tensor of per-sample scalars, or the `(values, indices)` named tuple
(`torch.return_types.max`) that `Tensor.max(dim=-1)` returns. -/
inductive PyVal (B P : ℕ)
  | tensor (x : Fin B → ℝ)
  | maxPair (values : Fin B → ℝ) (indices : Fin B → Fin P)

/-- Python unary minus as used on lines 141-142: defined elementwise on a
tensor; on the `torch.return_types.max` named tuple it is not defined and
raises `TypeError`. -/
def pyNeg {B P : ℕ} : PyVal B P → Except String (PyVal B P)
  | .tensor x => .ok (.tensor fun b => -(x b))
  | .maxPair _ _ => .error "TypeError: bad operand type for unary -"

/-- Claim C2 is a code bug: lines 141-142 compute `-probas.max(dim=-1)` and
`-logits.max(dim=-1)`, applying unary minus to the `(values, indices)` named
tuple — a `TypeError` on every batch — instead of negating `.values`.  The
claim's intended per-sample scalars are nevertheless what the negated
`.values` would give: at the two-class logit vector `[0, 0]`, softmax is
`[1/2, 1/2]` (so the intended `msp = -max softmax = -1/2`) and the Shannon
entropy of the softmax equals `log 2`. -/
theorem valStep_msp_typeError :
    (∀ (v : Fin 1 → ℝ) (ix : Fin 1 → Fin 2),
      pyNeg (PyVal.maxPair v ix)
        = Except.error "TypeError: bad operand type for unary -") ∧
    (∀ j, softmaxF (fun _ : Fin 2 => (0 : ℝ)) j = 1 / 2) ∧
    entropyF (softmaxF fun _ : Fin 2 => (0 : ℝ)) = Real.log 2 := by
  have hs : ∀ j, softmaxF (fun _ : Fin 2 => (0 : ℝ)) j = 1 / 2 := by
    intro j
    unfold softmaxF
    rw [Fin.sum_univ_two]
    norm_num
  refine ⟨fun v ix => rfl, hs, ?_⟩
  have hn : Real.negMulLog (1 / 2 : ℝ) = Real.log 2 / 2 := by
    unfold Real.negMulLog
    rw [one_div, Real.log_inv]
    ring
  unfold entropyF
  rw [Fin.sum_univ_two, hs, hs, hn]
  ring

/-! ### Tracked score names vs stored score keys (lines 74-80 and 137-163) -/

/-- The score names enumerated in `Sensemble.__init__` (`self.ood_scores`,
lines 74-79); a per-kind AUROC tracker is created for each of them and the
accumulation loop on lines 162-163 reads `ood_scores[k]` for each. -/
def oodScoreNames : List String :=
  ["msp", "maxlogit", "energy", "entropy", "gen",
   "mean_msp", "mean_entropy", "mean_gen", "expected_entropy", "bald_score",
   "mean_msp_on_views", "mean_entropy_on_views", "mean_gen_on_views",
   "expected_entropy_on_views", "bald_score_on_views"]

/-- The keys actually assigned into the per-step `ood_scores` dict by
`validation_step` (lines 141-160), in program order. -/
def valStepStoredKeys : List String :=
  ["msp", "maxlogit", "energy", "entropy", "gen",
   "mean_msp", "mean_entropies", "mean_gen", "expected_entropies", "bald_scores",
   "mean_msp_on_views", "mean_entropies_on_views", "mean_gen_on_views",
   "expected_entropies_on_views", "bald_scores_on_views"]

/-- Claim C3 is a code bug: the per-step score map does NOT contain an entry
for every tracked score name, so the accumulation loop
`for k in self.ood_scores: self.val_metrics[k].update(ood_scores[k], ...)`
raises `KeyError` on every validation batch: `validation_step` stores the
ensemble statistics under plural keys (`mean_entropies`, `expected_entropies`,
`bald_scores`, and their `_on_views` forms) while the tracked names are the
singular `mean_entropy`, `expected_entropy`, `bald_score`. -/
theorem valStep_missing_score_keys :
    "mean_entropy" ∈ oodScoreNames ∧
    "mean_entropy" ∉ valStepStoredKeys ∧
    ¬ ∀ k ∈ oodScoreNames, k ∈ valStepStoredKeys := by
  refine ⟨by decide, by decide, fun h => ?_⟩
  exact absurd (h "mean_entropy" (by decide)) (by decide)

/-! ### Inference modes in `validation_step` (lines 138-160) -/

/-- Modelled from the spec: the inference mode set by the `eval_mode` context
manager of the missing module `ssl_sandbox/nn/functional.py` — plain
`eval_mode(self)` gives deterministic inference, while
`eval_mode(self, enable_dropout=True)` keeps the stochastic regularization
layers active (Monte Carlo dropout). -/
inductive InfMode
  | deterministic
  | stochastic
deriving DecidableEq

/-- The mode each part of `validation_step` runs under: the single-pass scores
sit in `with eval_mode(self)` (line 138); the Monte Carlo ensemble over the
canonical image (line 148) AND the ensemble over the augmented views
(line 155) both sit inside the single `with eval_mode(self, enable_dropout=True)`
block opened on line 147. -/
structure ValStepModes where
  singlePass : InfMode
  mcEnsemble : InfMode
  viewsEnsemble : InfMode

/-- The mode assignment read off `validation_step`. -/
def valStepModes : ValStepModes :=
  { singlePass := .deterministic
    mcEnsemble := .stochastic
    viewsEnsemble := .stochastic }

/-- The methods defined on class `Sensemble` (sensemble.py); there is no
`forward`, although line 155 calls `self.forward(v)` for every view. -/
def sensembleMethods : List String :=
  ["__init__", "on_fit_start", "to_logits", "training_step", "validation_step",
   "on_validation_epoch_end", "configure_optimizers", "sinkhorn",
   "compute_ood_scores"]

/-- Claim C8 is a code bug: the claim (and spec) require the K view passes to
run in deterministic inference mode, but in the code they run inside the
`enable_dropout=True` block (stochastic regularization active, so a view's
forward pass is not a deterministic function of the view), and they invoke
`self.forward`, a method `Sensemble` never defines — raising
`NotImplementedError` on every validation batch.  Only the Monte Carlo half of
the claim matches the code: the canonical-image passes do run stochastically. -/
theorem valStep_views_not_deterministic :
    valStepModes.viewsEnsemble = InfMode.stochastic ∧
    valStepModes.viewsEnsemble ≠ InfMode.deterministic ∧
    valStepModes.mcEnsemble = InfMode.stochastic ∧
    valStepModes.singlePass = InfMode.deterministic ∧
    "forward" ∉ sensembleMethods := by
  refine ⟨rfl, by decide, rfl, rfl, by decide⟩

/-! ### Constructor architecture dispatch (`Sensemble.__init__`, lines 44-53) -/

/-- Python exception classes that the constructor's architecture dispatch can
surface. -/
inductive PyExc
  | valueError (msg : String)
  | unboundLocalError (varName : String)
deriving DecidableEq

/-- The architecture dispatch of `Sensemble.__init__`: recognized selectors
build an encoder (embedding dimension 512 for the resnet18 family, 2048 for
the resnet50 family).  For any other selector the code executes
`raise ValueError(f'``encoder={encoder}`` is not supported')` — but the local
variable `encoder` is assigned only in the two recognized branches, so
evaluating the f-string raises `UnboundLocalError` for the name `encoder`
before any `ValueError` is constructed (and even the intended message
interpolates the encoder object, not the selector string). -/
def initEncoderDispatch (sel : String) : Except PyExc Nat :=
  if sel = "resnet18" ∨ sel = "resnet18_cifar10" then .ok 512
  else if sel = "resnet50" ∨ sel = "resnet50_cifar10" then .ok 2048
  else .error (.unboundLocalError "encoder")

/-- Claim C9 is a code bug: for a selector outside the recognized set the
constructor does fail before training starts and builds no encoder, but the
exception is an `UnboundLocalError` (the f-string in the `raise` statement
references the never-assigned local `encoder`), not a `ValueError` naming the
unsupported selector. -/
theorem initEncoderDispatch_unboundLocal :
    initEncoderDispatch "vgg16" = Except.error (PyExc.unboundLocalError "encoder") ∧
    (∀ msg, initEncoderDispatch "vgg16" ≠ Except.error (PyExc.valueError msg)) ∧
    (∀ dim, initEncoderDispatch "vgg16" ≠ Except.ok dim) := by
  have hval : initEncoderDispatch "vgg16"
      = Except.error (PyExc.unboundLocalError "encoder") := rfl
  refine ⟨hval, fun msg h => ?_, fun dim h => ?_⟩
  · rw [hval] at h
    exact PyExc.noConfusion (Except.error.inj h)
  · rw [hval] at h
    exact Except.noConfusion h
